import Mathlib

/-! Constellix Go client: a shallow embedding of `client/client.go`.

The library functions come first, then the functions of the source, then the theorems.

* Go `string` values are Lean `String`s (a Go string holding valid UTF-8);
  `[]byte(s)` is the UTF-8 encoding, a list of naturals below 256.
* Go `int`, `int64` and `time.Duration` are Lean `Int`s, `int` being 64 bits
  wide; where the source does arithmetic that can leave the 64-bit range the
  result is wrapped with `wrapInt64`.
* A Go `error` is `Option String`: `none` is `nil`, `some m` an error whose
  `Error()` text is `m`.
* An `*http.Response` that may be `nil` is `Option Response`. The header map
  of a response is the one `net/http` builds from the header fields of the
  server's reply, with every key in canonical form.
* Code that can panic or call `log.Fatal` returns an `Outcome`.
* `time.Sleep` and the hand-over of a request to the HTTP client are
  recorded as `Effect`s, in program order.
* The locks `mux` and `headerMux` and all logging are left out: the model
  is a single caller.

The library functions the source calls (`crypto/sha1`, `crypto/hmac`,
`encoding/base64`, `strconv`, `strings.Split`, `encoding/json`,
`net/textproto`) are modelled
by executable definitions that follow their documented behaviour, with the
nesting limit of `encoding/json` and the range error of a number that does
not fit a `float64`.
-/

set_option maxRecDepth 1000000

namespace Constellix

/-! ## Library: bytes, SHA-1, HMAC, base64 -/

/-- Bytes of a string: the conversion `[]byte(s)`. -/
def bytesOf (s : String) : List Nat :=
  s.data.flatMap (fun c => (String.utf8EncodeChar c).map UInt8.toNat)

/-- Reduction of a natural number to 32 bits. -/
def mask32 (x : Nat) : Nat := x % 4294967296

/-- Rotation to the left by `k` bits of a 32-bit word. -/
def rotl32 (k x : Nat) : Nat := mask32 ((x <<< k) ||| (x >>> (32 - k)))

/-- Big-endian bytes of `x`, `k` of them. -/
def beBytes : Nat → Nat → List Nat
  | 0, _ => []
  | k + 1, x => (x >>> (8 * k)) % 256 :: beBytes k x

/-- Big-endian 32-bit words of a byte list whose length is a multiple of 4. -/
def wordsOf : List Nat → List Nat
  | b0 :: b1 :: b2 :: b3 :: rest => (((b0 * 256 + b1) * 256 + b2) * 256 + b3) :: wordsOf rest
  | _ => []

/-- SHA-1 padding: a `0x80` byte, zeros up to 56 modulo 64, the bit length on 8 bytes. -/
def sha1Pad (msg : List Nat) : List Nat :=
  msg ++ [128] ++ List.replicate ((119 - msg.length % 64) % 64) 0 ++ beBytes 8 (8 * msg.length)

/-- Message schedule: extends the word list by `fuel` words. -/
def sha1Schedule : Nat → List Nat → List Nat
  | 0, w => w
  | fuel + 1, w =>
    let i := w.length
    sha1Schedule fuel
      (w ++ [rotl32 1 (w.getD (i - 3) 0 ^^^ w.getD (i - 8) 0 ^^^ w.getD (i - 14) 0 ^^^ w.getD (i - 16) 0)])

/-- The five working words of SHA-1. -/
structure Sha1State where
  a : Nat
  b : Nat
  c : Nat
  d : Nat
  e : Nat
deriving DecidableEq, Repr

/-- The initial chaining value of SHA-1. -/
def sha1Init : Sha1State := ⟨0x67452301, 0xEFCDAB89, 0x98BADCFE, 0x10325476, 0xC3D2E1F0⟩

/-- One round of the compression function, round number `t`, schedule word `wt`. -/
def sha1Round (t : Nat) (s : Sha1State) (wt : Nat) : Sha1State :=
  let f :=
    if t < 20 then (s.b &&& s.c) ||| ((s.b ^^^ 0xFFFFFFFF) &&& s.d)
    else if t < 40 then s.b ^^^ s.c ^^^ s.d
    else if t < 60 then (s.b &&& s.c) ||| (s.b &&& s.d) ||| (s.c &&& s.d)
    else s.b ^^^ s.c ^^^ s.d
  let k :=
    if t < 20 then 0x5A827999
    else if t < 40 then 0x6ED9EBA1
    else if t < 60 then 0x8F1BBCDC
    else 0xCA62C1D6
  ⟨mask32 (rotl32 5 s.a + f + s.e + k + wt), s.a, rotl32 30 s.b, s.c, s.d⟩

/-- The rounds over the schedule words, from round `t` on. -/
def sha1Rounds : Nat → Sha1State → List Nat → Sha1State
  | _, s, [] => s
  | t, s, wt :: ws => sha1Rounds (t + 1) (sha1Round t s wt) ws

/-- Compression of one 64-byte block into the chaining value. -/
def sha1Block (h : Sha1State) (block : List Nat) : Sha1State :=
  let s := sha1Rounds 0 h (sha1Schedule 64 (wordsOf block))
  ⟨mask32 (h.a + s.a), mask32 (h.b + s.b), mask32 (h.c + s.c), mask32 (h.d + s.d),
    mask32 (h.e + s.e)⟩

/-- Compression of the successive 64-byte blocks of a padded message. -/
def sha1Blocks : Nat → Sha1State → List Nat → Sha1State
  | 0, h, _ => h
  | fuel + 1, h, bytes =>
    if bytes = [] then h else sha1Blocks fuel (sha1Block h (bytes.take 64)) (bytes.drop 64)

/-- SHA-1 digest (20 bytes) of a byte list: `sha1.Sum`. -/
def sha1Sum (msg : List Nat) : List Nat :=
  let p := sha1Pad msg
  let h := sha1Blocks (p.length / 64) sha1Init p
  beBytes 4 h.a ++ beBytes 4 h.b ++ beBytes 4 h.c ++ beBytes 4 h.d ++ beBytes 4 h.e

/-- The state of a `hash.Hash` returned by `hmac.New(sha1.New, key)`. -/
structure HMAC where
  opad : List Nat
  ipad : List Nat
  written : List Nat
deriving DecidableEq, Repr

/-- The key block of HMAC: keys longer than the block size are hashed, then zero padded. -/
def hmacKeyBlock (key : List Nat) : List Nat :=
  let k := if key.length > 64 then sha1Sum key else key
  k ++ List.replicate (64 - k.length) 0

/-- Model of `hmac.New(sha1.New, key)`. -/
def hmacNew (key : List Nat) : HMAC :=
  { opad := (hmacKeyBlock key).map (fun b => b ^^^ 0x5c)
    ipad := (hmacKeyBlock key).map (fun b => b ^^^ 0x36)
    written := [] }

/-- Model of `h.Write(p)`. -/
def HMAC.Write (h : HMAC) (p : List Nat) : HMAC := { h with written := h.written ++ p }

/-- Model of `h.Sum(b)`: appends the MAC of what was written to `b`. -/
def HMAC.Sum (h : HMAC) (b : List Nat) : List Nat :=
  b ++ sha1Sum (h.opad ++ sha1Sum (h.ipad ++ h.written))

/-- The alphabet of `base64.StdEncoding`. -/
def base64Alphabet : List Char :=
  "ABCDEFGHIJKLMNOPQRSTUVWXYZabcdefghijklmnopqrstuvwxyz0123456789+/".data

/-- The character of a 6-bit value. -/
def base64Char (n : Nat) : Char := base64Alphabet.getD n 'A'

/-- Characters of the standard, padded base64 encoding of a byte list. -/
def base64Chars : List Nat → List Char
  | b0 :: b1 :: b2 :: rest =>
    base64Char (b0 >>> 2) :: base64Char (((b0 &&& 3) <<< 4) ||| (b1 >>> 4)) ::
      base64Char (((b1 &&& 15) <<< 2) ||| (b2 >>> 6)) :: base64Char (b2 &&& 63) ::
      base64Chars rest
  | [b0, b1] =>
    [base64Char (b0 >>> 2), base64Char (((b0 &&& 3) <<< 4) ||| (b1 >>> 4)),
      base64Char ((b1 &&& 15) <<< 2), '=']
  | [b0] => [base64Char (b0 >>> 2), base64Char ((b0 &&& 3) <<< 4), '=', '=']
  | [] => []

/-- Model of `base64.StdEncoding.EncodeToString`. -/
def EncodeToString (src : List Nat) : String := ⟨base64Chars src⟩

/-! ## Library: `strconv` -/

/-- The character of a decimal digit. -/
def digitChar (d : Nat) : Char := Char.ofNat (48 + d)

/-- Decimal digits of `n`, most significant first, pushed in front of `acc`. -/
def natDigits : Nat → Nat → List Char → List Char
  | 0, _, acc => acc
  | fuel + 1, n, acc =>
    if n < 10 then digitChar n :: acc
    else natDigits fuel (n / 10) (digitChar (n % 10) :: acc)

/-- Decimal representation of a natural number. -/
def formatNat (n : Nat) : List Char := natDigits (n + 1) n []

/-- Model of `strconv.FormatInt(i, 10)`. -/
def FormatInt (i : Int) : String :=
  if i < 0 then ⟨'-' :: formatNat i.natAbs⟩ else ⟨formatNat i.natAbs⟩

/-- Value of a digit string on top of an accumulator. -/
def valAcc (a : Nat) (cs : List Char) : Nat :=
  cs.foldl (fun a c => a * 10 + (c.toNat - 48)) a

/-! ## `getToken` -/

/-- Model of `getToken`; `nowUnixNano` is the reading `time.Now().UnixNano()`.
Go's integer division truncates toward zero. -/
def getToken (nowUnixNano : Int) (apiKey secretKey : String) : String :=
  let time := FormatInt (Int.tdiv nowUnixNano 1000000)
  let h := hmacNew (bytesOf secretKey)
  let h := h.Write (bytesOf time)
  let sha := EncodeToString (h.Sum [])
  let token := apiKey ++ ":" ++ sha ++ ":" ++ time
  token

/-! ## Library: `strconv.Atoi`, `strings.Split`, 64-bit integers -/

/-- Two's-complement wrap of an integer to the range of `int64`. -/
def wrapInt64 (x : Int) : Int := (x + 9223372036854775808) % 18446744073709551616 - 9223372036854775808

/-- Model of `strconv.Atoi` on a 64-bit platform: an optional sign, then one or more decimal
digits, the value within the range of `int`; `none` stands for a returned error. -/
def Atoi (s : String) : Option Int :=
  match s.data with
  | [] => none
  | c :: rest =>
    let digits := if c = '-' ∨ c = '+' then rest else c :: rest
    if digits = [] ∨ ¬ digits.all (fun d => decide ('0' ≤ d ∧ d ≤ '9')) then none
    else
      let n : Int := Int.ofNat (valAcc 0 digits)
      let v : Int := if c = '-' then -n else n
      if -9223372036854775808 ≤ v ∧ v ≤ 9223372036854775807 then some v else none

/-- Fields of a character list around a separator character. -/
def splitChars (sep : Char) : List Char → List (List Char)
  | [] => [[]]
  | c :: cs =>
    if c = sep then [] :: splitChars sep cs
    else
      match splitChars sep cs with
      | [] => [[c]]
      | field :: fields => (c :: field) :: fields

/-- Model of `strings.Split(s, sep)` for a separator of one character. -/
def Split (s : String) (sep : Char) : List String := (splitChars sep s.data).map String.mk

/-! ## Library: `encoding/json` -/

/-- A decoded JSON value, as `json.Unmarshal` stores it in an `interface{}`: `null` is the nil
interface, a number (a `float64`) keeps its text, since the source never looks at numbers, an
object keeps its members in input order. -/
inductive Json where
  | null : Json
  | bool : Bool → Json
  | num : String → Json
  | str : String → Json
  | arr : List Json → Json
  | obj : List (String × Json) → Json

/-- Lexical tokens of JSON. -/
inductive Token where
  | lbrace : Token
  | rbrace : Token
  | lbrack : Token
  | rbrack : Token
  | colon : Token
  | comma : Token
  | str : String → Token
  | num : String → Token
  | lit : Json → Token

/-- Value of a hexadecimal digit. -/
def hexVal (c : Char) : Option Nat :=
  if '0' ≤ c ∧ c ≤ '9' then some (c.toNat - 48)
  else if 'a' ≤ c ∧ c ≤ 'f' then some (c.toNat - 87)
  else if 'A' ≤ c ∧ c ≤ 'F' then some (c.toNat - 55)
  else none

/-- Value of four hexadecimal digits. -/
def hex4 (a b c d : Char) : Option Nat :=
  match hexVal a, hexVal b, hexVal c, hexVal d with
  | some x, some y, some z, some w => some (((x * 16 + y) * 16 + z) * 16 + w)
  | _, _, _, _ => none

/-- The character of a one-letter escape. -/
def simpleEscape (c : Char) : Option Char :=
  if c = '"' then some '"'
  else if c = '\\' then some '\\'
  else if c = '/' then some '/'
  else if c = 'b' then some (Char.ofNat 8)
  else if c = 'f' then some (Char.ofNat 12)
  else if c = 'n' then some (Char.ofNat 10)
  else if c = 'r' then some (Char.ofNat 13)
  else if c = 't' then some (Char.ofNat 9)
  else none

/-- The body of a string literal after its opening quote: the decoded text and the rest of the
input. A surrogate escape that is not the first half of a valid pair decodes to U+FFFD. -/
def lexString : Nat → List Char → List Char → Option (String × List Char)
  | 0, _, _ => none
  | fuel + 1, cs, acc =>
    match cs with
    | [] => none
    | c :: rest =>
      if c = '"' then some (⟨acc.reverse⟩, rest)
      else if c = '\\' then
        match rest with
        | 'u' :: h1 :: h2 :: h3 :: h4 :: rest2 =>
          match hex4 h1 h2 h3 h4 with
          | none => none
          | some u =>
            if 0xD800 ≤ u ∧ u < 0xE000 then
              match rest2 with
              | '\\' :: 'u' :: k1 :: k2 :: k3 :: k4 :: rest3 =>
                match hex4 k1 k2 k3 k4 with
                | some u2 =>
                  if u < 0xDC00 ∧ 0xDC00 ≤ u2 ∧ u2 < 0xE000 then
                    lexString fuel rest3
                      (Char.ofNat ((u - 0xD800) * 1024 + (u2 - 0xDC00) + 0x10000) :: acc)
                  else lexString fuel rest2 (Char.ofNat 0xFFFD :: acc)
                | none => lexString fuel rest2 (Char.ofNat 0xFFFD :: acc)
              | _ => lexString fuel rest2 (Char.ofNat 0xFFFD :: acc)
            else lexString fuel rest2 (Char.ofNat u :: acc)
        | e :: rest2 =>
          match simpleEscape e with
          | some d => lexString fuel rest2 (d :: acc)
          | none => none
        | [] => none
      else if c.toNat < 0x20 then none
      else lexString fuel rest (c :: acc)

/-- The longest prefix of decimal digits and the rest. -/
def spanDigits : List Char → List Char × List Char
  | [] => ([], [])
  | c :: cs =>
    if '0' ≤ c ∧ c ≤ '9' then ((spanDigits cs).1.cons c, (spanDigits cs).2) else ([], c :: cs)

/-- A number literal: `-? (0 | [1-9][0-9]*) (. [0-9]+)? ([eE] [+-]? [0-9]+)?`; its text and the
rest of the input. -/
def lexNumber (cs : List Char) : Option (String × List Char) :=
  let (sign, cs1) := match cs with
    | '-' :: r => (['-'], r)
    | _ => ([], cs)
  let intPart : Option (List Char × List Char) := match cs1 with
    | '0' :: r => some (['0'], r)
    | _ => let (ds, r) := spanDigits cs1; if ds = [] then none else some (ds, r)
  match intPart with
  | none => none
  | some (ip, cs2) =>
    let frac : Option (List Char × List Char) := match cs2 with
      | '.' :: r => let (ds, r2) := spanDigits r; if ds = [] then none else some ('.' :: ds, r2)
      | _ => some ([], cs2)
    match frac with
    | none => none
    | some (fp, cs3) =>
      let exp : Option (List Char × List Char) := match cs3 with
        | e :: r =>
          if e = 'e' ∨ e = 'E' then
            let (sg, r1) := match r with
              | '+' :: r1 => (['+'], r1)
              | '-' :: r1 => (['-'], r1)
              | _ => ([], r)
            let (ds, r2) := spanDigits r1
            if ds = [] then none else some (e :: sg ++ ds, r2)
          else some ([], cs3)
        | [] => some ([], cs3)
      match exp with
      | none => none
      | some (ep, cs4) => some (⟨sign ++ ip ++ fp ++ ep⟩, cs4)

/-- The tokens of a JSON text, put after the tokens `acc` read so far, which are in reverse
order; `none` on a lexical error. -/
def lexJSON : Nat → List Char → List Token → Option (List Token)
  | 0, _, _ => none
  | fuel + 1, cs, acc =>
    match cs with
    | [] => some acc.reverse
    | c :: rest =>
      if c = ' ' ∨ c = Char.ofNat 9 ∨ c = Char.ofNat 10 ∨ c = Char.ofNat 13 then
        lexJSON fuel rest acc
      else if c = '{' then lexJSON fuel rest (Token.lbrace :: acc)
      else if c = '}' then lexJSON fuel rest (Token.rbrace :: acc)
      else if c = '[' then lexJSON fuel rest (Token.lbrack :: acc)
      else if c = ']' then lexJSON fuel rest (Token.rbrack :: acc)
      else if c = ':' then lexJSON fuel rest (Token.colon :: acc)
      else if c = ',' then lexJSON fuel rest (Token.comma :: acc)
      else if c = '"' then
        match lexString (rest.length + 1) rest [] with
        | some (s, rest2) => lexJSON fuel rest2 (Token.str s :: acc)
        | none => none
      else if c = '-' ∨ ('0' ≤ c ∧ c ≤ '9') then
        match lexNumber cs with
        | some (s, rest2) => lexJSON fuel rest2 (Token.num s :: acc)
        | none => none
      else
        match cs with
        | 't' :: 'r' :: 'u' :: 'e' :: rest2 =>
          lexJSON fuel rest2 (Token.lit (Json.bool true) :: acc)
        | 'f' :: 'a' :: 'l' :: 's' :: 'e' :: rest2 =>
          lexJSON fuel rest2 (Token.lit (Json.bool false) :: acc)
        | 'n' :: 'u' :: 'l' :: 'l' :: rest2 => lexJSON fuel rest2 (Token.lit Json.null :: acc)
        | _ => none

/-- The power `10 ^ n`. -/
def pow10 : Nat → Nat
  | 0 => 1
  | n + 1 => 10 * pow10 n

/-- The number `2 ^ 1024 - 2 ^ 970`, half way between the largest `float64` and `2 ^ 1024`:
from here on rounding to the nearest `float64` gives infinity. -/
def floatOverflowBound : Nat :=
  179769313486231580793728971405303415079934132710037826936173778980444968292764750946649017977587207096330286416692887910946555547851940402630657488671505820681908902000708383676273854845817711531764475730270069855571366959622842914819860834936475292719074168444365510704342711559699508093042880177904174497792

/-- Whether `strconv.ParseFloat(text, 64)` fails with a range error on a number literal: the
value `m * 10 ^ e` of the literal is at least `floatOverflowBound`. Here `m` is the number
written by the digits of the mantissa and `e` the exponent less the count of fraction
digits. -/
def floatOverflows (text : String) : Bool :=
  let mant := text.data.takeWhile (fun c => decide (c ≠ 'e' ∧ c ≠ 'E'))
  let expo := text.data.dropWhile (fun c => decide (c ≠ 'e' ∧ c ≠ 'E'))
  let digits := mant.filter (fun c => decide ('0' ≤ c ∧ c ≤ '9'))
  let fracLen := ((mant.dropWhile (fun c => decide (c ≠ '.'))).drop 1).length
  let expVal : Int := match expo with
    | [] => 0
    | _ :: '-' :: ds => -Int.ofNat (valAcc 0 ds)
    | _ :: '+' :: ds => Int.ofNat (valAcc 0 ds)
    | _ :: ds => Int.ofNat (valAcc 0 ds)
  let m := valAcc 0 digits
  let e : Int := expVal - Int.ofNat fracLen
  if m = 0 then false
  else if 0 ≤ e then
    if 400 < e then true else decide (floatOverflowBound ≤ m * pow10 e.toNat)
  else if Int.ofNat digits.length ≤ -e then false
  else decide (floatOverflowBound * pow10 (-e).toNat ≤ m)

/-- The value a number literal decodes to: a `float64`, or the nil interface when the
conversion to `float64` overflows (the decoder records the error and goes on). -/
def numberValue (text : String) : Json :=
  if floatOverflows text then Json.null else Json.num text

/-- The greatest nesting depth of arrays and objects that `encoding/json` accepts. -/
def maxNestingDepth : Nat := 10000

/-- A container under construction that waits for its next value. -/
inductive Frame where
  | arr : List Json → Frame
  | obj : List (String × Json) → String → Frame

/-- What the parser expects next. -/
inductive Mode where
  | wantValue : Bool → Mode
  | wantKey : List (String × Json) → Bool → Mode
  | wantColon : List (String × Json) → String → Mode
  | done : Json → Mode

/-- The pushdown parser over the tokens. In `wantValue first` and `wantKey members first` the
flag says that the container was just opened, so that it may close at once; in `done v` the
value `v` is complete and goes to the innermost open container. Containers collect their
parts in reverse. Where a value is expected every open container has its frame on the stack,
so that an array or object that opens there lies at depth `stack.length + 1`; it is refused
beyond `maxNestingDepth`. -/
def parseTokens : List Frame → Mode → List Token → Option Json
  | [], Mode.done v, [] => some v
  | _, _, [] => none
  | stack, Mode.wantValue first, t :: ts =>
    match t with
    | Token.lbrack =>
      if stack.length < maxNestingDepth then
        parseTokens (Frame.arr [] :: stack) (Mode.wantValue true) ts
      else none
    | Token.lbrace =>
      if stack.length < maxNestingDepth then parseTokens stack (Mode.wantKey [] true) ts
      else none
    | Token.str s => parseTokens stack (Mode.done (Json.str s)) ts
    | Token.num s => parseTokens stack (Mode.done (numberValue s)) ts
    | Token.lit v => parseTokens stack (Mode.done v) ts
    | Token.rbrack =>
      match first, stack with
      | true, Frame.arr _ :: stack1 => parseTokens stack1 (Mode.done (Json.arr [])) ts
      | _, _ => none
    | _ => none
  | stack, Mode.wantKey members first, t :: ts =>
    match t with
    | Token.str k => parseTokens stack (Mode.wantColon members k) ts
    | Token.rbrace => if first then parseTokens stack (Mode.done (Json.obj [])) ts else none
    | _ => none
  | stack, Mode.wantColon members k, t :: ts =>
    match t with
    | Token.colon => parseTokens (Frame.obj members k :: stack) (Mode.wantValue false) ts
    | _ => none
  | stack, Mode.done v, t :: ts =>
    match stack, t with
    | Frame.arr items :: stack1, Token.comma =>
      parseTokens (Frame.arr (v :: items) :: stack1) (Mode.wantValue false) ts
    | Frame.arr items :: stack1, Token.rbrack =>
      parseTokens stack1 (Mode.done (Json.arr (v :: items).reverse)) ts
    | Frame.obj members k :: stack1, Token.comma =>
      parseTokens stack1 (Mode.wantKey ((k, v) :: members) false) ts
    | Frame.obj members k :: stack1, Token.rbrace =>
      parseTokens stack1 (Mode.done (Json.obj ((k, v) :: members).reverse)) ts
    | _, _ => none

/-- The value of a JSON text as `encoding/json` decodes it; `none` when the text is not valid
JSON or nests deeper than `maxNestingDepth`. -/
def parseJSON (text : String) : Option Json :=
  match lexJSON (text.length + 1) text.data [] with
  | some tokens => parseTokens [] (Mode.wantValue false) tokens
  | none => none

/-- Model of `json.Unmarshal(text, &data)` for a nil `data map[string]interface{}`, the returned
error being dropped as the source drops it: the members of `data` afterwards. A text that is
not valid JSON, that nests too deep, or whose value is not an object, leaves `data` nil, which
reads like the empty map. -/
def Unmarshal (text : String) : List (String × Json) :=
  match parseJSON text with
  | some (Json.obj members) => members
  | _ => []

/-- The map read `data[key]`: the value stored last under `key`, the nil interface when the key
is absent. -/
def mapIndex (data : List (String × Json)) (key : String) : Json :=
  match data.reverse.lookup key with
  | some v => v
  | none => Json.null

/-- The name the Go runtime prints for the dynamic type of a decoded value. -/
def goTypeName : Json → String
  | Json.null => "nil"
  | Json.bool _ => "bool"
  | Json.num _ => "float64"
  | Json.str _ => "string"
  | Json.arr _ => "[]interface \x7b\x7d"
  | Json.obj _ => "map[string]interface \x7b\x7d"

/-! ## Outcomes, responses, the two error policies -/

/-- How a call ends: it returns, it panics, or `log.Fatal` ends the process. -/
inductive Outcome (α : Type) where
  | ret : α → Outcome α
  | panic : String → Outcome α
  | fatal : String → Outcome α
deriving DecidableEq, Repr

/-- The part of an `http.Response` the source reads. `Header` is the map from keys to value
lists, one entry per key; `Body` is what `ioutil.ReadAll(resp.Body)` yields, the text or a read
error. -/
structure Response where
  StatusCode : Int
  Header : List (String × List String)
  Body : Except String String

/-! ## Library: the header map of a received response -/

/-- The image of a character under a table of pairs, the character itself when the table has
no pair for it. -/
def mapChar : List (Char × Char) → Char → Char
  | [], c => c
  | (a, b) :: rest, c => if c = a then b else mapChar rest c

/-- The lower-case ASCII letters with their upper-case letters. -/
def upperTable : List (Char × Char) :=
  "abcdefghijklmnopqrstuvwxyz".data.zip "ABCDEFGHIJKLMNOPQRSTUVWXYZ".data

/-- The upper-case ASCII letters with their lower-case letters. -/
def lowerTable : List (Char × Char) :=
  "ABCDEFGHIJKLMNOPQRSTUVWXYZ".data.zip "abcdefghijklmnopqrstuvwxyz".data

/-- The characters of an HTTP token: ASCII letters, digits and the marks of RFC 7230
(39 is the apostrophe, 96 the grave accent). -/
def validHeaderFieldByte (c : Char) : Bool :=
  decide (('a' ≤ c ∧ c ≤ 'z') ∨ ('A' ≤ c ∧ c ≤ 'Z') ∨ ('0' ≤ c ∧ c ≤ '9')) ||
    "!#$%&*+-.^_|~".data.contains c || c == Char.ofNat 39 || c == Char.ofNat 96

/-- The canonical letters of a header key: upper case at the start and after each hyphen,
lower case elsewhere. -/
def canonLetters : Bool → List Char → List Char
  | _, [] => []
  | upper, c :: cs =>
    (if upper then mapChar upperTable c else mapChar lowerTable c) ::
      canonLetters (decide ((if upper then mapChar upperTable c else mapChar lowerTable c) = '-'))
        cs

/-- Model of `textproto.CanonicalMIMEHeaderKey`: a key that holds a character outside the HTTP
tokens is returned as it is. -/
def CanonicalMIMEHeaderKey (s : String) : String :=
  if s.data.all validHeaderFieldByte then ⟨canonLetters true s.data⟩ else s

/-- The assignment `m[key] = append(m[key], value)` on a header map. -/
def addHeader : List (String × List String) → String → String → List (String × List String)
  | [], key, value => [(key, [value])]
  | (k, vs) :: rest, key, value =>
    if k = key then (k, vs ++ [value]) :: rest else (k, vs) :: addHeader rest key value

/-- The header map that `net/http` builds from the header fields of a response, name and value
in the order received: each name is put in canonical form, a field with an empty name is
skipped, and the values of one name are collected in order. -/
def readHeader (fields : List (String × String)) : List (String × List String) :=
  fields.foldl
    (fun m kv =>
      if CanonicalMIMEHeaderKey kv.1 = "" then m
      else addHeader m (CanonicalMIMEHeaderKey kv.1) kv.2)
    []

/-- A response as the server sends it: the status code, the header fields in order, and the
body, which is what `ioutil.ReadAll(resp.Body)` yields, the text or a read error. -/
structure Reply where
  StatusCode : Int
  fields : List (String × String)
  Body : Except String String

/-- The `http.Response` that the HTTP client hands over for a reply. -/
def Reply.toResponse (r : Reply) : Response :=
  { StatusCode := r.StatusCode, Header := readHeader r.fields, Body := r.Body }

/-- The loop `for _, val := range errors { allerrs = allerrs + val.(string) }`. -/
def concatErrors : List Json → String → Outcome String
  | [], allerrs => Outcome.ret allerrs
  | val :: rest, allerrs =>
    match val with
    | Json.str s => concatErrors rest (allerrs ++ s)
    | other =>
      Outcome.panic ("interface conversion: interface \x7b\x7d is " ++ goTypeName other ++ ", not string")

/-- Model of `checkForErrors`, the policy of the primary host. -/
def checkForErrors (resp : Response) : Outcome (Option String) :=
  if resp.StatusCode ≠ 200 then
    match resp.Body with
    | Except.error err => Outcome.fatal err
    | Except.ok bodyString =>
      let data := Unmarshal bodyString
      match mapIndex data "errors" with
      | Json.arr errors =>
        match concatErrors errors "" with
        | Outcome.ret allerrs => Outcome.ret (some allerrs)
        | Outcome.panic m => Outcome.panic m
        | Outcome.fatal m => Outcome.fatal m
      | other =>
        Outcome.panic
          ("interface conversion: interface \x7b\x7d is " ++ goTypeName other ++ ", not []interface \x7b\x7d")
  else Outcome.ret none

/-- Model of `checkForErrorsChecks`, the policy of the alternate host. -/
def checkForErrorsChecks (resp : Response) : Outcome (Option String) :=
  if resp.StatusCode ≠ 200 ∧ resp.StatusCode ≠ 201 then
    match resp.Body with
    | Except.error err => Outcome.fatal err
    | Except.ok bodyString => Outcome.ret (some bodyString)
  else Outcome.ret none

/-! ## The client -/

/-- The constant `BaseURL`. -/
def BaseURL : String := "https://api.dns.constellix.com/"

/-- The fields of `Client` other than the HTTP client itself, which is part of `Env`. -/
structure Client where
  apiKey : String
  secretKey : String
  insecure : Bool
  proxyurl : String
  reqRemCount : Int
  reqRefreshInterval : Int
  totalReq : Int
deriving DecidableEq, Repr

/-- The part of an `http.Request` the source sets. `Body` is `none` for a nil body; `Header`
lists the pairs stored by `Header.Set`, which stores a key in its canonical form. -/
structure Request where
  Method : String
  URL : String
  Body : Option String
  Header : List (String × String)
deriving DecidableEq, Repr

/-- What a call meets outside the program. `nowUnixNano` is the clock reading of
`time.Now().UnixNano()`; `newRequestError method url` is the error `http.NewRequest` returns
for a method and URL it rejects; `httpDo req` is what the exchange `c.httpclient.Do(req)`
yields: the reply read from the server, if any, and the returned error. The HTTP client is
always the `http.Client` over an `http.Transport` that `initClient` installs, so the response
the program sees is `Reply.toResponse` of the reply. -/
structure Env where
  nowUnixNano : Int
  newRequestError : String → String → Option String
  httpDo : Request → Option Reply × Option String

/-- The observable actions of a call, in program order. `sleep d` is a call `time.Sleep(d)`,
`d` in nanoseconds; `send req` is the call `c.httpclient.Do(req)`. -/
inductive Effect where
  | sleep : Int → Effect
  | send : Request → Effect
deriving DecidableEq, Repr

/-- A finished or aborted call: its effects and how it ended. -/
structure Run (α : Type) where
  effects : List Effect
  outcome : Outcome α

/-- Model of the option `Insecure`. -/
def Insecure (insecure : Bool) : Client → Client :=
  fun client => { client with insecure := insecure }

/-- Model of the option `ProxyUrl`. -/
def ProxyUrl (pUrl : String) : Client → Client :=
  fun client => { client with proxyurl := pUrl }

/-- Model of `initClient`. `urlParseError` is the
error `url.Parse` returns for a proxy URL it rejects, on which `configProxy` calls
`log.Fatal`. The transport that is built lives in `Env`. -/
def initClient (urlParseError : String → Option String) (apiKey secretKey : String)
    (options : List (Client → Client)) : Outcome Client :=
  let client : Client :=
    { apiKey := apiKey, secretKey := secretKey, insecure := false, proxyurl := "",
      reqRemCount := 30, reqRefreshInterval := 30, totalReq := 0 }
  let client := options.foldl (fun cl option => option cl) client
  if client.proxyurl ≠ "" then
    match urlParseError client.proxyurl with
    | some err => Outcome.fatal err
    | none => Outcome.ret client
  else Outcome.ret client

/-- Model of `GetClient`: it stores the result of `initClient` in the package variable and
returns it. -/
def GetClient (urlParseError : String → Option String) (apiKey secretKey : String)
    (options : List (Client → Client)) : Outcome Client :=
  initClient urlParseError apiKey secretKey options

/-- Model of `Client.makeRequest`: the effects (the sleep of the gate, if any) and the returned
pair `(req, err)`. `payload` is `none` for a nil slice. -/
def Client.makeRequest (c : Client) (env : Env) (method endpoint : String)
    (payload : Option String) : List Effect × Option Request × Option String :=
  let slept : List Effect :=
    if c.reqRemCount ≤ 2 then [Effect.sleep (wrapInt64 (1000000000 * c.reqRefreshInterval))]
    else []
  let body : Option String :=
    if method = "POST" ∨ method = "PUT" then some (payload.getD "") else none
  match env.newRequestError method endpoint with
  | some err => (slept, none, some err)
  | none =>
    let token := getToken env.nowUnixNano c.apiKey c.secretKey
    let req : Request :=
      { Method := method, URL := endpoint, Body := body,
        Header := [("Content-Type", "application/json"), ("X-Cns-Security-Token", token)] }
    (slept, some req, none)

/-- The body of the loop `for k, v := range resp.Header` of `Client.Do` on one entry. -/
def headerStep (c : Client) (kv : String × List String) : Outcome Client :=
  let k := kv.1
  let v := kv.2
  let afterRem : Outcome Client :=
    if k = "requestsRemainingHeader" then
      match v with
      | [] => Outcome.panic "runtime error: index out of range [0] with length 0"
      | v0 :: _ =>
        match Atoi v0 with
        | some tempInt => Outcome.ret { c with reqRemCount := tempInt }
        | none => Outcome.ret c
    else Outcome.ret c
  match afterRem with
  | Outcome.ret c1 =>
    if k = "requestRefreshInterval" then
      match v with
      | [] => Outcome.panic "runtime error: index out of range [0] with length 0"
      | v0 :: _ =>
        match Atoi v0 with
        | some tempInt => Outcome.ret { c1 with reqRefreshInterval := tempInt }
        | none => Outcome.ret c1
    else Outcome.ret c1
  | Outcome.panic m => Outcome.panic m
  | Outcome.fatal m => Outcome.fatal m

/-- The loop `for k, v := range resp.Header` of `Client.Do`. -/
def headerLoop : Client → List (String × List String) → Outcome Client
  | c, [] => Outcome.ret c
  | c, kv :: rest =>
    match headerStep c kv with
    | Outcome.ret c1 => headerLoop c1 rest
    | Outcome.panic m => Outcome.panic m
    | Outcome.fatal m => Outcome.fatal m

/-- Model of `Client.Do`: the client afterwards and the returned pair `(resp, err)`. Ranging
over the header of a nil response is a nil pointer dereference. -/
def Client.Do (c : Client) (env : Env) (req : Request) :
    Run (Client × Option Response × Option String) :=
  let resp := (env.httpDo req).1.map Reply.toResponse
  let err := (env.httpDo req).2
  match resp with
  | none =>
    ⟨[Effect.send req],
      Outcome.panic "runtime error: invalid memory address or nil pointer dereference"⟩
  | some r =>
    match headerLoop c r.Header with
    | Outcome.ret c1 =>
      ⟨[Effect.send req],
        Outcome.ret ({ c1 with totalReq := wrapInt64 (c1.totalReq + 1) }, some r, err)⟩
    | Outcome.panic m => ⟨[Effect.send req], Outcome.panic m⟩
    | Outcome.fatal m => ⟨[Effect.send req], Outcome.fatal m⟩

/-- The endpoint resolution that `Save`, `GetbyId`, `UpdatebyID` and `DeletebyId` each spell
out: the URL and the flag of the alternate host (`DeletebyId` keeps no flag). -/
def resolveEndpoint (endpoint : String) : String × Bool :=
  let urlArr := Split endpoint '/'
  if urlArr.length > 2 ∧ urlArr.getD 2 "" = "api.sonar.constellix.com" then (endpoint, true)
  else (BaseURL ++ endpoint, false)

/-- The common tail of `Save`, `GetbyId` and `UpdatebyID` after the request is built: send,
then apply the error policy the flag selects. -/
def dispatchAndCheck (c : Client) (env : Env) (flag : Bool)
    (built : List Effect × Option Request × Option String) :
    Run (Client × Option Response × Option String) :=
  match built with
  | (slept, _, some err1) => ⟨slept, Outcome.ret (c, none, some err1)⟩
  | (slept, none, none) =>
    ⟨slept, Outcome.panic "runtime error: invalid memory address or nil pointer dereference"⟩
  | (slept, some req, none) =>
    match c.Do env req with
    | ⟨sent, Outcome.ret (c1, _, some err2)⟩ => ⟨slept ++ sent, Outcome.ret (c1, none, some err2)⟩
    | ⟨sent, Outcome.ret (_, none, none)⟩ =>
      ⟨slept ++ sent,
        Outcome.panic "runtime error: invalid memory address or nil pointer dereference"⟩
    | ⟨sent, Outcome.ret (c1, some resp, none)⟩ =>
      match (if flag = false then checkForErrors resp else checkForErrorsChecks resp) with
      | Outcome.ret err => ⟨slept ++ sent, Outcome.ret (c1, some resp, err)⟩
      | Outcome.panic m => ⟨slept ++ sent, Outcome.panic m⟩
      | Outcome.fatal m => ⟨slept ++ sent, Outcome.fatal m⟩
    | ⟨sent, Outcome.panic m⟩ => ⟨slept ++ sent, Outcome.panic m⟩
    | ⟨sent, Outcome.fatal m⟩ => ⟨slept ++ sent, Outcome.fatal m⟩

/-- Model of `Client.Save`. `obj` is the result of `json.Marshal(obj)`, the JSON text or the
error on which the source calls `log.Fatal`. -/
def Client.Save (c : Client) (env : Env) (obj : Except String String) (endpoint : String) :
    Run (Client × Option Response × Option String) :=
  match obj with
  | Except.error err => ⟨[], Outcome.fatal err⟩
  | Except.ok jsonPayload =>
    let (url, flag) := resolveEndpoint endpoint
    dispatchAndCheck c env flag (c.makeRequest env "POST" url (some jsonPayload))

/-- Model of `Client.GetbyId`. -/
def Client.GetbyId (c : Client) (env : Env) (endpoint : String) :
    Run (Client × Option Response × Option String) :=
  let (url, flag) := resolveEndpoint endpoint
  dispatchAndCheck c env flag (c.makeRequest env "GET" url none)

/-- Model of `Client.UpdatebyID`. -/
def Client.UpdatebyID (c : Client) (env : Env) (obj : Except String String)
    (endpoint : String) : Run (Client × Option Response × Option String) :=
  match obj with
  | Except.error err => ⟨[], Outcome.fatal err⟩
  | Except.ok jsonPayload =>
    let (url, flag) := resolveEndpoint endpoint
    dispatchAndCheck c env flag (c.makeRequest env "PUT" url (some jsonPayload))

/-- Model of `Client.DeletebyId`: the client afterwards and the returned error. -/
def Client.DeletebyId (c : Client) (env : Env) (endpoint : String) :
    Run (Client × Option String) :=
  let (url, _) := resolveEndpoint endpoint
  match c.makeRequest env "DELETE" url none with
  | (slept, _, some err) => ⟨slept, Outcome.ret (c, some err)⟩
  | (slept, none, none) =>
    ⟨slept, Outcome.panic "runtime error: invalid memory address or nil pointer dereference"⟩
  | (slept, some req, none) =>
    match c.Do env req with
    | ⟨sent, Outcome.ret (c1, _, some err1)⟩ => ⟨slept ++ sent, Outcome.ret (c1, some err1)⟩
    | ⟨sent, Outcome.ret (c1, _, none)⟩ => ⟨slept ++ sent, Outcome.ret (c1, none)⟩
    | ⟨sent, Outcome.panic m⟩ => ⟨slept ++ sent, Outcome.panic m⟩
    | ⟨sent, Outcome.fatal m⟩ => ⟨slept ++ sent, Outcome.fatal m⟩

/-- The requests handed to the HTTP client, in order. -/
def sentRequests : List Effect → List Request
  | [] => []
  | Effect.send req :: rest => req :: sentRequests rest
  | Effect.sleep _ :: rest => sentRequests rest

/-- The time a call spends blocked in `time.Sleep`, in nanoseconds: `time.Sleep` returns at
once for a zero or negative duration. -/
def blockedNanos : List Effect → Int
  | [] => 0
  | Effect.sleep d :: rest => (if d ≤ 0 then 0 else d) + blockedNanos rest
  | Effect.send _ :: rest => blockedNanos rest

/-! ## Notions of the specification -/

/-- HMAC-SHA1 as RFC 2104 words it: `H((K xor opad) ++ H((K xor ipad) ++ message))`. -/
def hmacSha1 (key message : List Nat) : List Nat :=
  sha1Sum ((hmacKeyBlock key).map (fun b => b ^^^ 0x5c) ++
    sha1Sum ((hmacKeyBlock key).map (fun b => b ^^^ 0x36) ++ message))

/-- The condition the endpoint resolution is specified by: splitting the endpoint on `/` gives
more than two segments and the third segment is the alternate host. -/
def thirdSegmentIsAlternateHost (endpoint : String) : Prop :=
  2 < (Split endpoint '/').length ∧ (Split endpoint '/').getD 2 "" = "api.sonar.constellix.com"

instance (endpoint : String) : Decidable (thirdSegmentIsAlternateHost endpoint) := by
  unfold thirdSegmentIsAlternateHost
  infer_instance

/-- The URL the specification names for an endpoint: the endpoint itself for the alternate
host, the base URL followed by the endpoint otherwise. -/
def specURL (endpoint : String) : String :=
  if thirdSegmentIsAlternateHost endpoint then endpoint else BaseURL ++ endpoint

/-- The characters of `url` at positions `i` and `i + 1` are both slashes. -/
def slashPairAt (url : String) (i : Nat) : Prop :=
  url.data[i]? = some '/' ∧ url.data[i + 1]? = some '/'

instance (url : String) (i : Nat) : Decidable (slashPairAt url i) := by
  unfold slashPairAt
  infer_instance

/-! ## Concrete inputs -/

/-- A client as `GetClient "myapi" "secret"` returns it. -/
def demoClient : Client :=
  { apiKey := "myapi", secretKey := "secret", insecure := false, proxyurl := "",
    reqRemCount := 30, reqRefreshInterval := 30, totalReq := 0 }

/-- An environment whose server answers every request with the given reply. -/
def answering (reply : Reply) : Env :=
  { nowUnixNano := 1700000000000123456
    newRequestError := fun _ _ => none
    httpDo := fun _ => (some reply, none) }

/-- An environment in which every send fails: the HTTP client returns `(nil, err)`. -/
def refusing : Env :=
  { nowUnixNano := 1700000000000123456
    newRequestError := fun _ _ => none
    httpDo := fun _ => (none, some "dial tcp 203.0.113.1:443: connect: connection refused") }

/-- A body whose member `x` holds `n` arrays nested in one another, followed by a member
`errors` that is a list of strings. -/
def deepBody (n : Nat) : String :=
  ⟨"\x7b\"x\":".data ++ (List.replicate n '[' ++ (List.replicate n ']' ++
    ",\"errors\":[\"a\",\"b\"]\x7d".data))⟩

/-- A request to hand to `Client.Do`. -/
def demoRequest : Request :=
  { Method := "GET", URL := "https://api.dns.constellix.com/v1/domains", Body := none,
    Header := [("Content-Type", "application/json")] }

/-! ## Theorems: the library models on published test vectors -/

theorem sha1Sum_abc :
    sha1Sum (bytesOf "abc") =
      [0xa9, 0x99, 0x3e, 0x36, 0x47, 0x06, 0x81, 0x6a, 0xba, 0x3e, 0x25, 0x71, 0x78, 0x50, 0xc2,
        0x6c, 0x9c, 0xd0, 0xd8, 0x9d] := by
  decide

theorem hmacSha1_rfc2202_case2 :
    hmacSha1 (bytesOf "Jefe") (bytesOf "what do ya want for nothing?") =
      [0xef, 0xfc, 0xdf, 0x6a, 0xe5, 0xeb, 0x2f, 0xa2, 0xd2, 0x74, 0x16, 0xd5, 0xf1, 0x84, 0xdf,
        0x9c, 0x25, 0x9a, 0x7c, 0x79] := by
  decide

theorem EncodeToString_rfc4648 :
    EncodeToString (bytesOf "foobar") = "Zm9vYmFy" ∧ EncodeToString (bytesOf "fooba") = "Zm9vYmE=" ∧
      EncodeToString (bytesOf "foob") = "Zm9vYg==" := by
  decide

theorem Atoi_examples :
    Atoi "1" = some 1 ∧ Atoi "-5" = some (-5) ∧ Atoi "+12" = some 12 ∧ Atoi "" = none ∧
      Atoi "1_0" = none ∧ Atoi "soon" = none ∧ Atoi "9223372036854775807" = some 9223372036854775807 ∧
      Atoi "9223372036854775808" = none := by
  decide

theorem CanonicalMIMEHeaderKey_examples :
    CanonicalMIMEHeaderKey "requestsRemainingHeader" = "Requestsremainingheader" ∧
      CanonicalMIMEHeaderKey "requestRefreshInterval" = "Requestrefreshinterval" ∧
      CanonicalMIMEHeaderKey "x-cns-security-token" = "X-Cns-Security-Token" ∧
      CanonicalMIMEHeaderKey "Content-Type" = "Content-Type" ∧
      CanonicalMIMEHeaderKey "my key" = "my key" := by
  decide

theorem readHeader_example :
    readHeader [("requestsRemainingHeader", "1"), ("set-cookie", "a"), ("Set-Cookie", "b")] =
      [("Requestsremainingheader", ["1"]), ("Set-Cookie", ["a", "b"])] := by
  decide

theorem floatOverflowBound_eq : floatOverflowBound = 2 ^ 1024 - 2 ^ 970 := by
  norm_num [floatOverflowBound]

theorem floatOverflows_examples :
    floatOverflows "7" = false ∧ floatOverflows "1.7976931348623158e308" = false ∧
      floatOverflows "1.797693134862315808e308" = true ∧ floatOverflows "-1e400" = true ∧
      floatOverflows "0.00001e314" = true ∧ floatOverflows "100000e-5" = false ∧
      floatOverflows "0e999999999" = false ∧ floatOverflows "1e-400" = false := by
  decide

/-- An array or an object that opens inside `maxNestingDepth` open containers is refused. -/
theorem parseTokens_too_deep (stack : List Frame) (first : Bool) (ts : List Token)
    (h : maxNestingDepth ≤ stack.length) :
    parseTokens stack (Mode.wantValue first) (Token.lbrack :: ts) = none ∧
      parseTokens stack (Mode.wantValue first) (Token.lbrace :: ts) = none := by
  have hn : ¬ stack.length < maxNestingDepth := Nat.not_lt.mpr h
  constructor <;> simp [parseTokens, hn]

/-! ## Theorems: the nesting limit of the JSON decoder -/

theorem lexJSON_prefix : ∀ (fuel : Nat) (cs : List Char) (acc ts : List Token),
    lexJSON fuel cs acc = some ts → ∃ ts1, ts = acc.reverse ++ ts1 := by
  intro fuel
  induction fuel with
  | zero => intro cs acc ts h; simp [lexJSON] at h
  | succ fuel ih =>
    intro cs acc ts h
    have key : ∀ (t : Token) (r : List Char), lexJSON fuel r (t :: acc) = some ts →
        ∃ ts1, ts = acc.reverse ++ ts1 := by
      intro t r hr
      obtain ⟨ts1, h1⟩ := ih _ _ _ hr
      exact ⟨t :: ts1, by simp [h1]⟩
    unfold lexJSON at h
    repeat' split at h
    all_goals first
      | exact key _ _ h
      | exact ih _ _ _ h
      | exact ⟨[], by simpa using (Option.some.inj h).symm⟩
      | exact absurd h (by simp)

theorem lexJSON_lbrack (fuel : Nat) (rest : List Char) (acc : List Token) :
    lexJSON (fuel + 1) ('[' :: rest) acc = lexJSON fuel rest (Token.lbrack :: acc) := by
  rfl

theorem lexJSON_replicate : ∀ (n fuel : Nat) (rest : List Char) (acc : List Token),
    lexJSON (fuel + n) (List.replicate n '[' ++ rest) acc =
      lexJSON fuel rest (List.replicate n Token.lbrack ++ acc) := by
  intro n
  induction n with
  | zero => intro fuel rest acc; rfl
  | succ n ih =>
    intro fuel rest acc
    have h1 : fuel + (n + 1) = (fuel + n) + 1 := rfl
    rw [h1, List.replicate_succ, List.cons_append, lexJSON_lbrack, ih]
    congr 1
    rw [List.replicate_succ', List.append_assoc]
    rfl

theorem parseTokens_replicate : ∀ (n : Nat) (stack : List Frame) (first : Bool)
    (ts : List Token), maxNestingDepth ≤ stack.length + n →
    parseTokens stack (Mode.wantValue first) (List.replicate (n + 1) Token.lbrack ++ ts) =
      none := by
  intro n
  induction n with
  | zero =>
    intro stack first ts h
    exact (parseTokens_too_deep stack first _ h).1
  | succ n ih =>
    intro stack first ts h
    rw [List.replicate_succ, List.cons_append]
    by_cases hd : stack.length < maxNestingDepth
    · have : parseTokens stack (Mode.wantValue first)
          (Token.lbrack :: (List.replicate (n + 1) Token.lbrack ++ ts)) =
          parseTokens (Frame.arr [] :: stack) (Mode.wantValue true)
            (List.replicate (n + 1) Token.lbrack ++ ts) := by
        simp [parseTokens, hd]
      rw [this]
      apply ih
      simp only [List.length_cons]
      omega
    · have : parseTokens stack (Mode.wantValue first)
          (Token.lbrack :: (List.replicate (n + 1) Token.lbrack ++ ts)) = none := by
        simp [parseTokens, hd]
      exact this

theorem deepBody_length (n : Nat) :
    (deepBody n).length + 1 = ((n + 21) + n) + 1 + 1 + 1 + 1 + 1 := by
  have h1 : "\x7b\"x\":".data.length = 5 := by decide
  have h2 : ",\"errors\":[\"a\",\"b\"]\x7d".data.length = 20 := by decide
  unfold deepBody
  simp only [String.length, List.length_append, List.length_replicate, h1, h2]
  omega

theorem lexJSON_deepBody_head (fuel : Nat) (rest : List Char) :
    lexJSON (fuel + 1 + 1 + 1 + 1 + 1) ("\x7b\"x\":".data ++ rest) [] =
      lexJSON (fuel + 1 + 1) rest [Token.colon, Token.str "x", Token.lbrace] := by
  have hd : "\x7b\"x\":".data = ['\x7b', '"', 'x', '"', ':'] := rfl
  rw [hd]
  have h1 : lexJSON (fuel + 1 + 1 + 1 + 1 + 1) (['\x7b', '"', 'x', '"', ':'] ++ rest) [] =
      lexJSON (fuel + 1 + 1 + 1 + 1) ('"' :: 'x' :: '"' :: ':' :: rest) [Token.lbrace] := by
    rfl
  have h2 : lexJSON (fuel + 1 + 1 + 1 + 1) ('"' :: 'x' :: '"' :: ':' :: rest) [Token.lbrace] =
      lexJSON (fuel + 1 + 1 + 1) (':' :: rest) [Token.str "x", Token.lbrace] := by
    rfl
  have h3 : lexJSON (fuel + 1 + 1 + 1) (':' :: rest) [Token.str "x", Token.lbrace] =
      lexJSON (fuel + 1 + 1) rest [Token.colon, Token.str "x", Token.lbrace] := by
    rfl
  rw [h1, h2, h3]

theorem parseJSON_deepBody (n : Nat) (hn : 10000 ≤ n) : parseJSON (deepBody n) = none := by
  unfold parseJSON
  rw [deepBody_length]
  have hdata : (deepBody n).data =
      "\x7b\"x\":".data ++ (List.replicate n '[' ++
        (List.replicate n ']' ++ ",\"errors\":[\"a\",\"b\"]\x7d".data)) := rfl
  rw [hdata, lexJSON_deepBody_head]
  have hf : n + 21 + n + 1 + 1 = (n + 23) + n := by omega
  rw [hf, lexJSON_replicate]
  cases h : lexJSON (n + 23) (List.replicate n ']' ++ ",\"errors\":[\"a\",\"b\"]\x7d".data)
      (List.replicate n Token.lbrack ++ [Token.colon, Token.str "x", Token.lbrace]) with
  | none => rfl
  | some ts =>
    obtain ⟨ts1, h1⟩ := lexJSON_prefix _ _ _ _ h
    subst h1
    simp only [List.reverse_append, List.reverse_replicate, List.reverse_cons, List.reverse_nil,
      List.nil_append, List.cons_append, List.append_assoc]
    have hp : parseTokens [] (Mode.wantValue false)
        (Token.lbrace :: Token.str "x" :: Token.colon ::
          (List.replicate n Token.lbrack ++ ts1)) =
        parseTokens [Frame.obj [] "x"] (Mode.wantValue false)
          (List.replicate n Token.lbrack ++ ts1) := by
      simp [parseTokens, maxNestingDepth]
    rw [hp]
    obtain ⟨k, rfl⟩ : ∃ k, n = k + 1 := ⟨n - 1, by omega⟩
    apply parseTokens_replicate
    simp only [List.length_cons, List.length_nil, maxNestingDepth]
    omega

/-- On a status other than 200, a body that nests deeper than `encoding/json` accepts makes
`checkForErrors` panic like any other body that is not valid JSON, although it has a member
`errors` that is a list of strings. -/
theorem checkForErrors_deepBody (n : Nat) (hn : 10000 ≤ n) :
    checkForErrors ⟨500, [], Except.ok (deepBody n)⟩ =
      Outcome.panic
        "interface conversion: interface \x7b\x7d is nil, not []interface \x7b\x7d" := by
  have hs : (⟨500, [], Except.ok (deepBody n)⟩ : Response).StatusCode ≠ 200 := by
    show (500 : Int) ≠ 200
    decide
  unfold checkForErrors
  rw [if_pos hs]
  simp only [Unmarshal, parseJSON_deepBody n hn]
  rfl

theorem checkForErrors_shallowBody :
    checkForErrors ⟨500, [], Except.ok (deepBody 3)⟩ = Outcome.ret (some "ab") := by
  decide

/-! ## Theorems: the decimal representation -/

theorem digitChar_toNat (d : Nat) (h : d < 10) : (digitChar d).toNat - 48 = d := by
  interval_cases d <;> decide

theorem digitChar_ne_colon (d : Nat) (h : d < 10) : digitChar d ≠ ':' := by
  interval_cases d <;> decide

theorem digitChar_ne_minus (d : Nat) (h : d < 10) : digitChar d ≠ '-' := by
  interval_cases d <;> decide

theorem natDigits_mem (fuel : Nat) : ∀ (n : Nat) (acc : List Char) (c : Char),
    c ∈ natDigits fuel n acc → c ∈ acc ∨ ∃ d, d < 10 ∧ c = digitChar d := by
  induction fuel with
  | zero => intro n acc c hc; exact Or.inl hc
  | succ fuel ih =>
    intro n acc c hc
    unfold natDigits at hc
    split at hc
    · rename_i hn
      rcases List.mem_cons.mp hc with h | h
      · exact Or.inr ⟨n, hn, h⟩
      · exact Or.inl h
    · rcases ih _ _ _ hc with h | h
      · rcases List.mem_cons.mp h with h | h
        · exact Or.inr ⟨n % 10, Nat.mod_lt _ (by decide), h⟩
        · exact Or.inl h
      · exact Or.inr h

theorem formatNat_mem (n : Nat) (c : Char) (hc : c ∈ formatNat n) :
    ∃ d, d < 10 ∧ c = digitChar d := by
  rcases natDigits_mem _ _ _ _ hc with h | h
  · cases h
  · exact h

theorem valAcc_natDigits (fuel : Nat) : ∀ (n : Nat) (acc : List Char), n < fuel →
    valAcc 0 (natDigits fuel n acc) = valAcc n acc := by
  induction fuel with
  | zero => intro n acc h; omega
  | succ fuel ih =>
    intro n acc h
    unfold natDigits
    split
    · rename_i hn
      simp [valAcc, digitChar_toNat n hn]
    · rename_i hn
      rw [ih (n / 10) _ (by omega)]
      have hd := digitChar_toNat (n % 10) (Nat.mod_lt _ (by decide))
      simp only [valAcc, List.foldl_cons, hd]
      congr 1
      omega

theorem formatNat_injective (n m : Nat) (h : formatNat n = formatNat m) : n = m := by
  have hn := valAcc_natDigits (n + 1) n [] (Nat.lt_succ_self n)
  have hm := valAcc_natDigits (m + 1) m [] (Nat.lt_succ_self m)
  unfold formatNat at h
  rw [h, hm] at hn
  simpa [valAcc] using hn.symm

theorem formatNat_ne_nil (n : Nat) : formatNat n ≠ [] := by
  unfold formatNat natDigits
  split
  · simp
  · intro h
    have hm : digitChar (n % 10) ∈ natDigits n (n / 10) [digitChar (n % 10)] := by
      have aux : ∀ (fuel k : Nat) (acc : List Char) (c : Char), c ∈ acc →
          c ∈ natDigits fuel k acc := by
        intro fuel
        induction fuel with
        | zero => intro k acc c hc; exact hc
        | succ fuel ih =>
          intro k acc c hc
          unfold natDigits
          split
          · exact List.mem_cons_of_mem _ hc
          · exact ih _ _ _ (List.mem_cons_of_mem _ hc)
      exact aux _ _ _ _ (List.mem_cons_self _ _)
    rw [h] at hm
    cases hm

theorem FormatInt_injective (i j : Int) (h : FormatInt i = FormatInt j) : i = j := by
  unfold FormatInt at h
  by_cases hi : i < 0 <;> by_cases hj : j < 0
  · simp only [hi, hj, if_true] at h
    have := formatNat_injective _ _ (List.cons.inj (congrArg String.data h)).2
    omega
  · simp only [hi, hj, if_true, if_false] at h
    have h : '-' :: formatNat i.natAbs = formatNat j.natAbs := congrArg String.data h
    have hmem : '-' ∈ formatNat j.natAbs := by rw [← h]; exact List.mem_cons_self _ _
    obtain ⟨d, hd, hc⟩ := formatNat_mem _ _ hmem
    exact absurd hc.symm (digitChar_ne_minus d hd)
  · simp only [hi, hj, if_true, if_false] at h
    have h : formatNat i.natAbs = '-' :: formatNat j.natAbs := congrArg String.data h
    have hmem : '-' ∈ formatNat i.natAbs := by rw [h]; exact List.mem_cons_self _ _
    obtain ⟨d, hd, hc⟩ := formatNat_mem _ _ hmem
    exact absurd hc.symm (digitChar_ne_minus d hd)
  · simp only [hi, hj, if_false] at h
    have := formatNat_injective _ _ (congrArg String.data h)
    omega

theorem FormatInt_no_colon (i : Int) : ':' ∉ (FormatInt i).data := by
  intro hmem
  unfold FormatInt at hmem
  split at hmem
  · rcases List.mem_cons.mp hmem with h | h
    · exact absurd h (by decide)
    · obtain ⟨d, hd, hc⟩ := formatNat_mem _ _ h
      exact digitChar_ne_colon d hd hc.symm
  · obtain ⟨d, hd, hc⟩ := formatNat_mem _ _ hmem
    exact digitChar_ne_colon d hd hc.symm

/-- Two lists that end in a separator followed by separator-free fields have equal last fields. -/
theorem last_field_eq {α : Type} (sep : α) : ∀ (xs ys d1 d2 : List α),
    sep ∉ d1 → sep ∉ d2 → xs ++ sep :: d1 = ys ++ sep :: d2 → d1 = d2 := by
  intro xs
  induction xs with
  | nil =>
    intro ys d1 d2 h1 h2 h
    cases ys with
    | nil => simpa using h
    | cons y ys =>
      simp only [List.nil_append, List.cons_append, List.cons.injEq] at h
      exact absurd (h.2 ▸ List.mem_append_right _ (List.mem_cons_self _ _)) h1
  | cons x xs ih =>
    intro ys d1 d2 h1 h2 h
    cases ys with
    | nil =>
      simp only [List.nil_append, List.cons_append, List.cons.injEq] at h
      exact absurd (h.2 ▸ List.mem_append_right _ (List.mem_cons_self _ _)) h2
    | cons y ys =>
      simp only [List.cons_append, List.cons.injEq] at h
      exact ih ys d1 d2 h1 h2 h.2

/-- The streaming use of the HMAC object computes the RFC 2104 value. -/
theorem hmac_stream (k m : List Nat) : ((hmacNew k).Write m).Sum [] = hmacSha1 k m := by
  have h1 : ((hmacNew k).Write m).opad = (hmacKeyBlock k).map (fun b => b ^^^ 0x5c) := rfl
  have h2 : ((hmacNew k).Write m).ipad = (hmacKeyBlock k).map (fun b => b ^^^ 0x36) := rfl
  have h3 : ((hmacNew k).Write m).written = m := List.nil_append m
  unfold HMAC.Sum hmacSha1
  rw [h1, h2, h3, List.nil_append]

theorem getToken_unfold (nano : Int) (apiKey secretKey : String) :
    getToken nano apiKey secretKey =
      apiKey ++ ":" ++
        EncodeToString (hmacSha1 (bytesOf secretKey)
          (bytesOf (FormatInt (Int.tdiv nano 1000000)))) ++ ":" ++
        FormatInt (Int.tdiv nano 1000000) := by
  simp only [getToken]
  rw [hmac_stream]

theorem getToken_data (nano : Int) (apiKey secretKey : String) :
    (getToken nano apiKey secretKey).data =
      (apiKey.data ++ ':' ::
        (EncodeToString (hmacSha1 (bytesOf secretKey)
          (bytesOf (FormatInt (Int.tdiv nano 1000000))))).data) ++
        ':' :: (FormatInt (Int.tdiv nano 1000000)).data := by
  rw [getToken_unfold]
  simp only [String.data_append, List.append_assoc, List.singleton_append, List.cons_append]
  rfl

/-! ## Theorems: the signed token -/

/-- C1: for every API key, secret key and clock reading whose epoch-millisecond value is `t`,
`getToken` returns `apiKey ++ ":" ++ base64Std(HMAC-SHA1(secretKey, decimal t)) ++ ":" ++
decimal t`, the same decimal string serving as HMAC message and as trailing field. -/
theorem getToken_eq_signed_token (apiKey secretKey : String) (nowUnixNano t : Int)
    (ht : Int.tdiv nowUnixNano 1000000 = t) :
    getToken nowUnixNano apiKey secretKey =
      apiKey ++ ":" ++
        EncodeToString (hmacSha1 (bytesOf secretKey) (bytesOf (FormatInt t))) ++ ":" ++
        FormatInt t := by
  subst ht
  exact getToken_unfold _ _ _

/-- Witness of C1: the token of the reading 1700000000000123456 ns (t = 1700000000000 ms). -/
theorem getToken_eq_signed_token_witness :
    Int.tdiv 1700000000000123456 1000000 = 1700000000000 ∧
    getToken 1700000000000123456 "myapi" "secret" =
      "myapi" ++ ":" ++
        EncodeToString (hmacSha1 (bytesOf "secret") (bytesOf (FormatInt 1700000000000))) ++
        ":" ++ FormatInt 1700000000000 :=
  ⟨by decide, getToken_eq_signed_token "myapi" "secret" 1700000000000123456 1700000000000
    (by decide)⟩

/-- C2: signing is deterministic in the millisecond timestamp (two clock readings with the same
epoch-millisecond value give the same token) and a timestamp one millisecond later gives a
different token, for the same API key and secret key. -/
theorem getToken_deterministic_and_ms_sensitive (apiKey secretKey : String) (n m : Int) :
    (Int.tdiv n 1000000 = Int.tdiv m 1000000 →
      getToken n apiKey secretKey = getToken m apiKey secretKey) ∧
    (Int.tdiv m 1000000 = Int.tdiv n 1000000 + 1 →
      getToken n apiKey secretKey ≠ getToken m apiKey secretKey) := by
  constructor
  · intro h
    rw [getToken_unfold, getToken_unfold, h]
  · intro h heq
    have hd := congrArg String.data heq
    rw [getToken_data, getToken_data] at hd
    have hf := last_field_eq ':' _ _ _ _ (FormatInt_no_colon _) (FormatInt_no_colon _) hd
    have := FormatInt_injective _ _ (String.ext hf)
    omega

/-- Witness of C2: readings inside one millisecond agree, readings one millisecond apart differ. -/
theorem getToken_deterministic_and_ms_sensitive_witness :
    getToken 1700000000000123456 "myapi" "secret" =
      getToken 1700000000000999999 "myapi" "secret" ∧
    getToken 1700000000000123456 "myapi" "secret" ≠
      getToken 1700000000001123456 "myapi" "secret" :=
  ⟨(getToken_deterministic_and_ms_sensitive "myapi" "secret" 1700000000000123456
      1700000000000999999).1 (by decide),
    (getToken_deterministic_and_ms_sensitive "myapi" "secret" 1700000000000123456
      1700000000001123456).2 (by decide)⟩

/-! ## Theorems: effects of the dispatcher -/

theorem Do_effects (c : Client) (env : Env) (req : Request) :
    (c.Do env req).effects = [Effect.send req] := by
  unfold Client.Do
  simp only
  cases (env.httpDo req).1 with
  | none => rfl
  | some r =>
    simp only [Option.map]
    cases headerLoop c (Reply.toResponse r).Header <;> rfl

theorem dispatchAndCheck_effects (c : Client) (env : Env) (flag : Bool) (slept : List Effect)
    (req : Request) :
    (dispatchAndCheck c env flag (slept, some req, none)).effects = slept ++ [Effect.send req] := by
  have h := Do_effects c env req
  unfold dispatchAndCheck
  simp only
  split <;> simp_all
  split <;> simp_all

theorem dispatchAndCheck_effects_err (c : Client) (env : Env) (flag : Bool) (slept : List Effect)
    (req : Option Request) (e : String) :
    (dispatchAndCheck c env flag (slept, req, some e)).effects = slept := by
  unfold dispatchAndCheck
  cases req <;> rfl

/-- The request `makeRequest` builds when `http.NewRequest` accepts the method and URL. -/
theorem makeRequest_eq (c : Client) (env : Env) (method url : String) (payload : Option String) :
    c.makeRequest env method url payload =
      ((if c.reqRemCount ≤ 2 then [Effect.sleep (wrapInt64 (1000000000 * c.reqRefreshInterval))]
        else []),
        match env.newRequestError method url with
        | some err => (none, some err)
        | none =>
          (some { Method := method, URL := url,
                  Body := if method = "POST" ∨ method = "PUT" then some (payload.getD "") else none,
                  Header := [("Content-Type", "application/json"),
                    ("X-Cns-Security-Token", getToken env.nowUnixNano c.apiKey c.secretKey)] },
            none)) := by
  unfold Client.makeRequest
  cases env.newRequestError method url <;> rfl

theorem sentRequests_gate (c : Client) (env : Env) (method url : String)
    (payload : Option String) :
    sentRequests (c.makeRequest env method url payload).1 = [] := by
  rw [makeRequest_eq]
  by_cases h : c.reqRemCount ≤ 2 <;> simp [h, sentRequests]

theorem sentRequests_append (xs ys : List Effect) :
    sentRequests (xs ++ ys) = sentRequests xs ++ sentRequests ys := by
  induction xs with
  | nil => rfl
  | cons x xs ih => cases x <;> simp [sentRequests, ih]

/-- The URLs that the common tail dispatches to. -/
theorem dispatchAndCheck_urls (c : Client) (env : Env) (flag : Bool) (method url : String)
    (payload : Option String) :
    (sentRequests (dispatchAndCheck c env flag (c.makeRequest env method url payload)).effects).map
        Request.URL =
      if env.newRequestError method url = none then [url] else [] := by
  have hg := sentRequests_gate c env method url payload
  rw [makeRequest_eq] at hg ⊢
  cases hE : env.newRequestError method url with
  | some e =>
    simp only [dispatchAndCheck_effects_err]
    simp only [hg]
    simp
  | none =>
    simp only [dispatchAndCheck_effects, sentRequests_append]
    simp only [hg]
    simp [sentRequests]

theorem DeletebyId_urls (c : Client) (env : Env) (endpoint : String) :
    (sentRequests (c.DeletebyId env endpoint).effects).map Request.URL =
      if env.newRequestError "DELETE" (resolveEndpoint endpoint).1 = none
      then [(resolveEndpoint endpoint).1] else [] := by
  unfold Client.DeletebyId
  rcases resolveEndpoint endpoint with ⟨url, flag⟩
  simp only
  have hg := sentRequests_gate c env "DELETE" url none
  rw [makeRequest_eq] at hg ⊢
  cases hE : env.newRequestError "DELETE" url with
  | some e =>
    simp only [hg]
    simp
  | none =>
    simp only
    have h := Do_effects c env
      { Method := "DELETE", URL := url,
        Body := if "DELETE" = "POST" ∨ "DELETE" = "PUT" then some ((none : Option String).getD "")
          else none,
        Header := [("Content-Type", "application/json"),
          ("X-Cns-Security-Token", getToken env.nowUnixNano c.apiKey c.secretKey)] }
    split <;> simp_all [sentRequests_append, sentRequests]

theorem resolveEndpoint_fst (endpoint : String) :
    (resolveEndpoint endpoint).1 = specURL endpoint := by
  unfold resolveEndpoint specURL thirdSegmentIsAlternateHost
  simp only []
  split <;> rfl

theorem resolveEndpoint_snd (endpoint : String) :
    (resolveEndpoint endpoint).2 = decide (thirdSegmentIsAlternateHost endpoint) := by
  unfold resolveEndpoint
  simp only []
  split
  · rename_i h
    exact (decide_eq_true (p := thirdSegmentIsAlternateHost endpoint) h).symm
  · rename_i h
    exact (decide_eq_false (p := thirdSegmentIsAlternateHost endpoint) h).symm

/-- Where the base URL and the endpoint meet there are two slashes exactly when the endpoint
begins with one. -/
theorem slashPairAt_junction (endpoint : String) :
    slashPairAt (BaseURL ++ endpoint) (BaseURL.length - 1) ↔ endpoint.data.head? = some '/' := by
  have hl : BaseURL.length = 31 := by decide
  unfold slashPairAt
  rw [hl, String.data_append]
  have h30 : (BaseURL.data ++ endpoint.data)[31 - 1]? = some '/' := by
    rw [List.getElem?_append_left (by decide)]
    decide
  have h31 : (BaseURL.data ++ endpoint.data)[31 - 1 + 1]? = endpoint.data.head? := by
    rw [List.getElem?_append_right (by decide)]
    have : 31 - 1 + 1 - BaseURL.data.length = 0 := by decide
    rw [this]
    cases endpoint.data <;> simp
  rw [h30, h31]
  simp



/-! ## Theorems: the header map of a received response -/

theorem mapChar_cases (table : List (Char × Char)) (c : Char) :
    (mapChar table c = c ∧ ∀ p ∈ table, p.1 ≠ c) ∨ ∃ p ∈ table, mapChar table c = p.2 := by
  induction table with
  | nil => exact Or.inl ⟨rfl, fun _ h => absurd h (List.not_mem_nil _)⟩
  | cons p rest ih =>
    obtain ⟨a, b⟩ := p
    unfold mapChar
    by_cases h : c = a
    · rw [if_pos h]
      exact Or.inr ⟨(a, b), List.mem_cons_self _ _, rfl⟩
    · rw [if_neg h]
      rcases ih with ⟨h1, h2⟩ | ⟨p, hp, h3⟩
      · refine Or.inl ⟨h1, ?_⟩
        intro p hp
        rcases List.mem_cons.mp hp with hp | hp
        · subst hp
          exact fun hh => h hh.symm
        · exact h2 p hp
      · exact Or.inr ⟨p, List.mem_cons_of_mem _ hp, h3⟩

/-- No character is put in upper case as the letter `r`. -/
theorem mapChar_upper_ne_r (c : Char) : mapChar upperTable c ≠ 'r' := by
  intro h
  rcases mapChar_cases upperTable c with ⟨h1, h2⟩ | ⟨p, hp, h3⟩
  · rw [h1] at h
    exact h2 ('r', 'R') (by decide) h.symm
  · rw [h3] at h
    have hall : ∀ p ∈ upperTable, p.2 ≠ 'r' := by decide
    exact hall p hp h

/-- A canonical header key is never a key that begins with a lower-case `r` and is made of
token characters. -/
theorem CanonicalMIMEHeaderKey_ne (s t : String) (ht : t.data.head? = some 'r')
    (hv : t.data.all validHeaderFieldByte = true) : CanonicalMIMEHeaderKey s ≠ t := by
  intro h
  unfold CanonicalMIMEHeaderKey at h
  split at h
  · have hd : canonLetters true s.data = t.data := congrArg String.data h
    cases hs : s.data with
    | nil =>
      rw [hs] at hd
      rw [← hd] at ht
      simp [canonLetters] at ht
    | cons c cs =>
      rw [hs] at hd
      rw [← hd] at ht
      simp only [canonLetters, if_true, List.head?_cons, Option.some.injEq] at ht
      exact mapChar_upper_ne_r c ht
  · rename_i hn
    rw [h] at hn
    exact hn hv

theorem CanonicalMIMEHeaderKey_untracked (s : String) :
    CanonicalMIMEHeaderKey s ≠ "requestsRemainingHeader" ∧
      CanonicalMIMEHeaderKey s ≠ "requestRefreshInterval" :=
  ⟨CanonicalMIMEHeaderKey_ne s _ (by decide) (by decide),
    CanonicalMIMEHeaderKey_ne s _ (by decide) (by decide)⟩

theorem addHeader_keys (key value : String) : ∀ (m : List (String × List String)),
    ∀ kv ∈ addHeader m key value, kv.1 = key ∨ kv.1 ∈ m.map Prod.fst := by
  intro m
  induction m with
  | nil =>
    intro kv h
    simp only [addHeader, List.mem_singleton] at h
    exact Or.inl (by rw [h])
  | cons p rest ih =>
    obtain ⟨k, vs⟩ := p
    intro kv h
    unfold addHeader at h
    split at h
    · rcases List.mem_cons.mp h with h | h
      · exact Or.inr (by rw [h]; exact List.mem_cons_self _ _)
      · exact Or.inr (List.mem_cons_of_mem _ (List.mem_map_of_mem _ h))
    · rcases List.mem_cons.mp h with h | h
      · exact Or.inr (by rw [h]; exact List.mem_cons_self _ _)
      · rcases ih kv h with h | h
        · exact Or.inl h
        · exact Or.inr (List.mem_cons_of_mem _ h)

/-- The keys the header loop of `Client.Do` compares with. -/
theorem readHeader_fold_untracked (fields : List (String × String)) :
    ∀ (m : List (String × List String)),
    (∀ kv ∈ m, kv.1 ≠ "requestsRemainingHeader" ∧ kv.1 ≠ "requestRefreshInterval") →
    ∀ kv ∈ fields.foldl
        (fun m kv =>
          if CanonicalMIMEHeaderKey kv.1 = "" then m
          else addHeader m (CanonicalMIMEHeaderKey kv.1) kv.2) m,
      kv.1 ≠ "requestsRemainingHeader" ∧ kv.1 ≠ "requestRefreshInterval" := by
  induction fields with
  | nil => intro m hm; exact hm
  | cons f rest ih =>
    intro m hm
    simp only [List.foldl_cons]
    apply ih
    split
    · exact hm
    · intro kv hkv
      rcases addHeader_keys _ _ m kv hkv with h | h
      · rw [h]
        exact CanonicalMIMEHeaderKey_untracked f.1
      · obtain ⟨p, hp, hpk⟩ := List.mem_map.mp h
        rw [← hpk]
        exact hm p hp

theorem readHeader_untracked (fields : List (String × String)) :
    ∀ kv ∈ readHeader fields,
      kv.1 ≠ "requestsRemainingHeader" ∧ kv.1 ≠ "requestRefreshInterval" :=
  readHeader_fold_untracked fields [] (fun _ h => absurd h (List.not_mem_nil _))

theorem headerLoop_untracked : ∀ (hdr : List (String × List String)) (c : Client),
    (∀ kv ∈ hdr, kv.1 ≠ "requestsRemainingHeader" ∧ kv.1 ≠ "requestRefreshInterval") →
    headerLoop c hdr = Outcome.ret c := by
  intro hdr
  induction hdr with
  | nil => intro c _; rfl
  | cons kv rest ih =>
    intro c h
    have hk := h kv (List.mem_cons_self _ _)
    have hstep : headerStep c kv = Outcome.ret c := by
      unfold headerStep
      simp [hk.1, hk.2]
    unfold headerLoop
    rw [hstep]
    exact ih c (fun kv hkv => h kv (List.mem_cons_of_mem _ hkv))

/-- On every reply the HTTP client delivers, `Client.Do` returns the response and the error, adds
one to `totalReq` and leaves every other field of the client as it was: no key of a received
header map is spelled like the two keys the loop compares with. -/
theorem Do_received (c : Client) (env : Env) (req : Request) (reply : Reply)
    (err : Option String) (hsend : env.httpDo req = (some reply, err)) :
    c.Do env req =
      ⟨[Effect.send req],
        Outcome.ret ({ c with totalReq := wrapInt64 (c.totalReq + 1) },
          some reply.toResponse, err)⟩ := by
  unfold Client.Do
  rw [hsend]
  simp only [Option.map]
  have hl : headerLoop c reply.toResponse.Header = Outcome.ret c :=
    headerLoop_untracked _ c (readHeader_untracked reply.fields)
  rw [hl]

theorem wrapInt64_id (x : Int) (hlo : -9223372036854775808 ≤ x) (hhi : x ≤ 9223372036854775807) :
    wrapInt64 x = x := by
  unfold wrapInt64
  omega

/-! ## Theorems: endpoint resolution and the error policies -/

theorem Save_urls (c : Client) (env : Env) (payload endpoint : String) :
    (sentRequests (c.Save env (Except.ok payload) endpoint).effects).map Request.URL =
      if env.newRequestError "POST" (specURL endpoint) = none then [specURL endpoint] else [] := by
  rw [← resolveEndpoint_fst]
  unfold Client.Save
  rcases resolveEndpoint endpoint with ⟨url, flag⟩
  exact dispatchAndCheck_urls c env flag "POST" url (some payload)

theorem GetbyId_urls (c : Client) (env : Env) (endpoint : String) :
    (sentRequests (c.GetbyId env endpoint).effects).map Request.URL =
      if env.newRequestError "GET" (specURL endpoint) = none then [specURL endpoint] else [] := by
  rw [← resolveEndpoint_fst]
  unfold Client.GetbyId
  rcases resolveEndpoint endpoint with ⟨url, flag⟩
  exact dispatchAndCheck_urls c env flag "GET" url none

theorem UpdatebyID_urls (c : Client) (env : Env) (payload endpoint : String) :
    (sentRequests (c.UpdatebyID env (Except.ok payload) endpoint).effects).map Request.URL =
      if env.newRequestError "PUT" (specURL endpoint) = none then [specURL endpoint] else [] := by
  rw [← resolveEndpoint_fst]
  unfold Client.UpdatebyID
  rcases resolveEndpoint endpoint with ⟨url, flag⟩
  exact dispatchAndCheck_urls c env flag "PUT" url (some payload)

/-- C3 (amended): for every endpoint, the URL that `Save`, `GetbyId`, `UpdatebyID` and
`DeletebyId` hand to the HTTP client (when `http.NewRequest` accepts it; nothing is sent
otherwise) is the endpoint unchanged when splitting it on `/` gives more than two segments and
the third is `api.sonar.constellix.com`, and otherwise exactly `BaseURL` followed by the
endpoint; in that second case the place where the base URL and the endpoint meet holds a
duplicated `/` exactly when the endpoint itself begins with `/`. -/
theorem dispatch_url_resolution (c : Client) (env : Env) (payload endpoint : String) :
    ((sentRequests (c.Save env (Except.ok payload) endpoint).effects).map Request.URL =
      if env.newRequestError "POST" (specURL endpoint) = none then [specURL endpoint] else []) ∧
    ((sentRequests (c.GetbyId env endpoint).effects).map Request.URL =
      if env.newRequestError "GET" (specURL endpoint) = none then [specURL endpoint] else []) ∧
    ((sentRequests (c.UpdatebyID env (Except.ok payload) endpoint).effects).map Request.URL =
      if env.newRequestError "PUT" (specURL endpoint) = none then [specURL endpoint] else []) ∧
    ((sentRequests (c.DeletebyId env endpoint).effects).map Request.URL =
      if env.newRequestError "DELETE" (specURL endpoint) = none then [specURL endpoint] else []) ∧
    (¬ thirdSegmentIsAlternateHost endpoint →
      (slashPairAt (specURL endpoint) (BaseURL.length - 1) ↔ endpoint.data.head? = some '/')) := by
  refine ⟨Save_urls c env payload endpoint, GetbyId_urls c env endpoint,
    UpdatebyID_urls c env payload endpoint, ?_, ?_⟩
  · rw [← resolveEndpoint_fst]
    exact DeletebyId_urls c env endpoint
  · intro h
    unfold specURL
    rw [if_neg h]
    exact slashPairAt_junction endpoint

/-- Witness of C3: the endpoint `v1/domains` goes to the primary host with a single slash at
the junction, and an endpoint on the alternate host is used as it is. -/
theorem dispatch_url_resolution_witness :
    (sentRequests (demoClient.GetbyId (answering ⟨200, [], Except.ok ""⟩) "v1/domains").effects).map
        Request.URL = ["https://api.dns.constellix.com/v1/domains"] ∧
    ¬ slashPairAt "https://api.dns.constellix.com/v1/domains" 30 ∧
    (sentRequests (demoClient.DeletebyId (answering ⟨200, [], Except.ok ""⟩)
        "https://api.sonar.constellix.com/rest/api/http/7").effects).map Request.URL =
      ["https://api.sonar.constellix.com/rest/api/http/7"] :=
  ⟨(dispatch_url_resolution demoClient (answering ⟨200, [], Except.ok ""⟩) "" "v1/domains").2.1,
    fun h => absurd
      (((dispatch_url_resolution demoClient (answering ⟨200, [], Except.ok ""⟩) ""
        "v1/domains").2.2.2.2 (by decide)).mp h) (by decide),
    (dispatch_url_resolution demoClient (answering ⟨200, [], Except.ok ""⟩) ""
      "https://api.sonar.constellix.com/rest/api/http/7").2.2.2.1⟩

/-- Counterexample to C3 as stated: the endpoint `/v1/domains` is not on the alternate host, and
the URL dispatched to has two slashes where the base URL and the endpoint meet. -/
theorem duplicated_separator_counterexample :
    ¬ thirdSegmentIsAlternateHost "/v1/domains" ∧
    (sentRequests (demoClient.GetbyId (answering ⟨200, [], Except.ok ""⟩) "/v1/domains").effects).map
        Request.URL = ["https://api.dns.constellix.com//v1/domains"] ∧
    slashPairAt "https://api.dns.constellix.com//v1/domains" (BaseURL.length - 1) := by
  decide

/-- C5: `checkForErrorsChecks` returns no error exactly when the status code is 200 or 201, and
for every other status its error message is the body text as it is, with no JSON parsing. -/
theorem checkForErrorsChecks_alternate_policy (resp : Response) (body : String) :
    (checkForErrorsChecks resp = Outcome.ret none ↔
      (resp.StatusCode = 200 ∨ resp.StatusCode = 201)) ∧
    (¬ (resp.StatusCode = 200 ∨ resp.StatusCode = 201) → resp.Body = Except.ok body →
      checkForErrorsChecks resp = Outcome.ret (some body)) := by
  constructor
  · constructor
    · intro heq
      by_contra hne
      unfold checkForErrorsChecks at heq
      rw [if_pos (not_or.mp hne)] at heq
      split at heq <;> cases heq
    · intro h
      unfold checkForErrorsChecks
      rw [if_neg (fun hn => (not_or.mpr hn) h)]
  · intro hs hb
    unfold checkForErrorsChecks
    rw [if_pos (not_or.mp hs), hb]

/-- Witness of C5: status 201 is a success, and status 400 with body `oops` gives `oops`. -/
theorem checkForErrorsChecks_alternate_policy_witness :
    checkForErrorsChecks ⟨201, [], Except.ok "created"⟩ = Outcome.ret none ∧
    checkForErrorsChecks ⟨400, [], Except.ok "oops"⟩ = Outcome.ret (some "oops") :=
  ⟨(checkForErrorsChecks_alternate_policy ⟨201, [], Except.ok "created"⟩ "created").1.mpr
      (Or.inr rfl),
    (checkForErrorsChecks_alternate_policy ⟨400, [], Except.ok "oops"⟩ "oops").2
      (by decide) rfl⟩

/-! ## Theorems: crashes and dropped errors -/

/-- C6 (the code at the failing inputs): on a status other than 200, `checkForErrors` panics on
a body that is not JSON, on a JSON object without `errors`, on an `errors` that is not a list
and on a list with a member that is not a string, where the claim asks for an error carrying
the raw body; the alternate policy returns the raw body on the same response. -/
theorem checkForErrors_malformed_body_panics :
    checkForErrors ⟨500, [], Except.ok "Internal Server Error"⟩ =
      Outcome.panic "interface conversion: interface \x7b\x7d is nil, not []interface \x7b\x7d" ∧
    checkForErrors ⟨500, [], Except.ok "\x7b\"message\":\"boom\"\x7d"⟩ =
      Outcome.panic "interface conversion: interface \x7b\x7d is nil, not []interface \x7b\x7d" ∧
    checkForErrors ⟨500, [], Except.ok "\x7b\"errors\":\"boom\"\x7d"⟩ =
      Outcome.panic "interface conversion: interface \x7b\x7d is string, not []interface \x7b\x7d" ∧
    checkForErrors ⟨500, [], Except.ok "\x7b\"errors\":[\"boom\",7]\x7d"⟩ =
      Outcome.panic "interface conversion: interface \x7b\x7d is float64, not string" ∧
    checkForErrorsChecks ⟨500, [], Except.ok "Internal Server Error"⟩ =
      Outcome.ret (some "Internal Server Error") := by
  decide

/-- On a status other than 200 a body that is not valid JSON makes `checkForErrors` panic. -/
theorem checkForErrors_invalid_json (resp : Response) (body : String)
    (hs : resp.StatusCode ≠ 200) (hb : resp.Body = Except.ok body) (hp : parseJSON body = none) :
    checkForErrors resp =
      Outcome.panic
        "interface conversion: interface \x7b\x7d is nil, not []interface \x7b\x7d" := by
  unfold checkForErrors
  rw [if_pos hs, hb]
  simp only [Unmarshal, hp]
  rfl

/-- A nil response makes `Client.Do` panic, whatever the error that comes with it. -/
theorem Do_nil_response (c : Client) (env : Env) (req : Request) (err : Option String)
    (hsend : env.httpDo req = (none, err)) :
    (c.Do env req).outcome =
      Outcome.panic "runtime error: invalid memory address or nil pointer dereference" := by
  unfold Client.Do
  rw [hsend]
  rfl

/-- C7 (the code at the failing input): when the HTTP client returns `(nil, err)`, `Client.Do`
panics on the nil response instead of returning `err`, and so do `Save`, `GetbyId`,
`UpdatebyID` and `DeletebyId`. -/
theorem send_failure_panics :
    refusing.httpDo demoRequest =
      (none, some "dial tcp 203.0.113.1:443: connect: connection refused") ∧
    (demoClient.Do refusing demoRequest).outcome =
      Outcome.panic "runtime error: invalid memory address or nil pointer dereference" ∧
    (demoClient.Save refusing (Except.ok "\x7b\x7d") "v1/domains").outcome =
      Outcome.panic "runtime error: invalid memory address or nil pointer dereference" ∧
    (demoClient.GetbyId refusing "v1/domains/1").outcome =
      Outcome.panic "runtime error: invalid memory address or nil pointer dereference" ∧
    (demoClient.UpdatebyID refusing (Except.ok "\x7b\x7d") "v1/domains/1").outcome =
      Outcome.panic "runtime error: invalid memory address or nil pointer dereference" ∧
    (demoClient.DeletebyId refusing "v1/domains/1").outcome =
      Outcome.panic "runtime error: invalid memory address or nil pointer dereference" := by
  refine ⟨rfl, rfl, rfl, rfl, rfl, rfl⟩

/-- Whenever the send succeeds without a transport error, `DeletebyId` returns a nil error: the
status code of the response plays no part. -/
theorem DeletebyId_nil_error (c : Client) (env : Env) (endpoint : String) (reply : Reply)
    (hnew : ∀ url, env.newRequestError "DELETE" url = none)
    (hsend : ∀ req, env.httpDo req = (some reply, none)) :
    ∃ c1 : Client, (c.DeletebyId env endpoint).outcome = Outcome.ret (c1, none) := by
  unfold Client.DeletebyId
  rcases resolveEndpoint endpoint with ⟨url, flag⟩
  simp only
  rw [makeRequest_eq, hnew url]
  simp only
  rw [Do_received c env _ reply none (hsend _)]
  exact ⟨_, rfl⟩

/-- C9 (the code at the failing input): on a 404 from the primary host and on a 500 from the
alternate host `DeletebyId` returns a nil error, where `GetbyId` on the same endpoint and
response returns the error of the host policy. -/
theorem DeletebyId_drops_server_error :
    (demoClient.DeletebyId
        (answering ⟨404, [], Except.ok "\x7b\"errors\":[\"Domain not found\"]\x7d"⟩)
        "v1/domains/1").outcome =
      Outcome.ret ({ demoClient with totalReq := 1 }, none) ∧
    (demoClient.GetbyId
        (answering ⟨404, [], Except.ok "\x7b\"errors\":[\"Domain not found\"]\x7d"⟩)
        "v1/domains/1").outcome =
      Outcome.ret ({ demoClient with totalReq := 1 },
        some ⟨404, [], Except.ok "\x7b\"errors\":[\"Domain not found\"]\x7d"⟩,
        some "Domain not found") ∧
    (demoClient.DeletebyId (answering ⟨500, [], Except.ok "down"⟩)
        "https://api.sonar.constellix.com/rest/api/http/7").outcome =
      Outcome.ret ({ demoClient with totalReq := 1 }, none) ∧
    (demoClient.GetbyId (answering ⟨500, [], Except.ok "down"⟩)
        "https://api.sonar.constellix.com/rest/api/http/7").outcome =
      Outcome.ret ({ demoClient with totalReq := 1 }, some ⟨500, [], Except.ok "down"⟩,
        some "down") := by
  refine ⟨rfl, rfl, rfl, rfl⟩

/-! ## Theorems: the rate-limit headers are never read -/

/-- C10 (the code at the failing input): on a 200 reply that carries the header fields
`requestsRemainingHeader: 7` and `requestRefreshInterval: 60`, the header map the program
receives holds them under their canonical keys, the comparisons of `Client.Do` with the
spellings `requestsRemainingHeader` and `requestRefreshInterval` fail, and `reqRemCount` and
`reqRefreshInterval` stay at 30 where the claim says 7 and 60; `totalReq` is one more. -/
theorem bookkeeping_misses_received_headers :
    (demoClient.Do
        (answering
          ⟨200, [("requestsRemainingHeader", "7"), ("requestRefreshInterval", "60")],
            Except.ok ""⟩)
        demoRequest).outcome =
      Outcome.ret
        ({ apiKey := "myapi", secretKey := "secret", insecure := false, proxyurl := "",
            reqRemCount := 30, reqRefreshInterval := 30, totalReq := 1 },
          some ⟨200, [("Requestsremainingheader", ["7"]), ("Requestrefreshinterval", ["60"])],
            Except.ok ""⟩,
          none) := by
  rfl

/-- C8 (the code at the failing input): after a reply that carries the header field
`requestsRemainingHeader: 1`, in the spelling of the source or in canonical spelling,
`reqRemCount` is still 30, and the next `makeRequest` calls no `time.Sleep` and blocks for no
time, where the claim says it blocks for the refresh interval of 30 seconds. -/
theorem throttle_never_engages :
    (demoClient.Do (answering ⟨200, [("requestsRemainingHeader", "1")], Except.ok ""⟩)
        demoRequest).outcome =
      Outcome.ret
        ({ apiKey := "myapi", secretKey := "secret", insecure := false, proxyurl := "",
            reqRemCount := 30, reqRefreshInterval := 30, totalReq := 1 },
          some ⟨200, [("Requestsremainingheader", ["1"])], Except.ok ""⟩, none) ∧
    (demoClient.Do (answering ⟨200, [("Requestsremainingheader", "1")], Except.ok ""⟩)
        demoRequest).outcome =
      Outcome.ret
        ({ apiKey := "myapi", secretKey := "secret", insecure := false, proxyurl := "",
            reqRemCount := 30, reqRefreshInterval := 30, totalReq := 1 },
          some ⟨200, [("Requestsremainingheader", ["1"])], Except.ok ""⟩, none) ∧
    (Client.makeRequest
        { apiKey := "myapi", secretKey := "secret", insecure := false, proxyurl := "",
          reqRemCount := 30, reqRefreshInterval := 30, totalReq := 1 }
        (answering ⟨200, [("requestsRemainingHeader", "1")], Except.ok ""⟩) "GET"
        "https://api.dns.constellix.com/v1/domains" none).1 = [] ∧
    blockedNanos (Client.makeRequest
        { apiKey := "myapi", secretKey := "secret", insecure := false, proxyurl := "",
          reqRemCount := 30, reqRefreshInterval := 30, totalReq := 1 }
        (answering ⟨200, [("requestsRemainingHeader", "1")], Except.ok ""⟩) "GET"
        "https://api.dns.constellix.com/v1/domains" none).1 = 0 := by
  refine ⟨rfl, rfl, by decide, by decide⟩

end Constellix
